import Mathlib

/-!
Shallow embedding of `futurist/periodics.py` (the periodic-task
coordinator) together with proofs that settle the frozen claims about
its specification.

Modelling conventions:
* Python timestamps and spacing values are rationals (`ℚ`).
* A Python callable tagged by the `periodic` decorator is modelled by the
  structure `Callback`, whose three `Option` fields model the presence or
  absence of the three required attributes (`hasattr` is `Option.isSome`;
  reading a present attribute is `Option.getD`).  Registered callbacks
  always carry all three attributes, because every registration path runs
  `_check_attrs` first (src lines 343-346, 482-485).
* Fallible Python code is modelled with `Except PyExc`.
* `utils.now()` is an external clock; functions that read it take the
  current time as an explicit argument.
-/

/-- Python exceptions that the modelled code can raise. -/
inductive PyExc
  | typeError (msg : String)
  | valueError (msg : String)
  | indexError
deriving DecidableEq

instance {ε α : Type} [DecidableEq ε] [DecidableEq α] : DecidableEq (Except ε α)
  | .ok a, .ok b =>
    if h : a = b then .isTrue (by rw [h])
    else .isFalse (by intro hc; cases hc; exact h rfl)
  | .ok _, .error _ => .isFalse (by intro hc; cases hc)
  | .error _, .ok _ => .isFalse (by intro hc; cases hc)
  | .error e, .error f =>
    if h : e = f then .isTrue (by rw [h])
    else .isFalse (by intro hc; cases hc; exact h rfl)

/-- Whether a fallible operation completed without raising. -/
def exceptAccepted {ε α : Type} : Except ε α → Bool
  | .ok _ => true
  | .error _ => false

/-- A callable carrying the (possibly absent) periodic attributes.
Field `x = Option.none` models `hasattr(cb, x) == False`.
(src lines 35-36: `_REQUIRED_ATTRS`). -/
structure Callback where
  is_periodic : Option Bool
  periodic_spacing : Option ℚ
  periodic_run_immediately : Option Bool
deriving DecidableEq

/-- Reading `cb._periodic_spacing` on a registered callback (the attribute
is always present there; the default is never reached on such callbacks). -/
def Callback.spacing (cb : Callback) : ℚ :=
  cb.periodic_spacing.getD 0

/-- Python truthiness of `cb._is_periodic` for a registered callback. -/
def Callback.periodicTruthy (cb : Callback) : Bool :=
  cb.is_periodic.getD false

/-- Python truthiness of `cb._periodic_run_immediately`. -/
def Callback.runImmediatelyTruthy (cb : Callback) : Bool :=
  cb.periodic_run_immediately.getD false

/-- Embedding of `_check_attrs` (src lines 39-48): returns the names of the
required attributes that are missing on the object. -/
def _check_attrs (cb : Callback) : List String :=
  (if cb.is_periodic.isSome then [] else ["_is_periodic"]) ++
  (if cb.periodic_spacing.isSome then [] else ["_periodic_spacing"]) ++
  (if cb.periodic_run_immediately.isSome then [] else ["_periodic_run_immediately"])

/-- Embedding of the `periodic` decorator (src lines 51-77): validates the
spacing, then returns the decorated callable carrying the three attributes.
The wrapped function itself is opaque and not modelled. -/
def periodic (spacing : ℚ) (run_immediately : Bool) : Except PyExc Callback :=
  if spacing ≤ 0 then
    .error (.valueError "Periodicity/spacing must be greater than zero")
  else
    .ok { is_periodic := some true,
          periodic_spacing := some spacing,
          periodic_run_immediately := some run_immediately }

/-- One per-callback metrics record (src lines 198-204,
`_INITIAL_METRICS`): the five keys are fixed; no code ever adds a key. -/
structure Metrics where
  runs : ℕ
  elapsed : ℚ
  elapsed_waiting : ℚ
  failures : ℕ
  successes : ℕ
deriving DecidableEq

/-- Embedding of `PeriodicWorker._INITIAL_METRICS` (src lines 198-204). -/
def INITIAL_METRICS : Metrics :=
  { runs := 0, elapsed := 0, elapsed_waiting := 0, failures := 0, successes := 0 }

/-- The lexicographic order that Python tuple comparison gives to the
`(next_run, index)` pairs stored in the schedule heap (src lines 124-139). -/
def pairLe (a b : ℚ × ℕ) : Prop :=
  a.1 < b.1 ∨ (a.1 = b.1 ∧ a.2 ≤ b.2)

instance (a b : ℚ × ℕ) : Decidable (pairLe a b) :=
  inferInstanceAs (Decidable (a.1 < b.1 ∨ (a.1 = b.1 ∧ a.2 ≤ b.2)))

/-- Removal of the least element under `pairLe` from a list: the
contract of `heapq.heappop` on a heap holding Python tuples
(the standard library heap always pops a smallest item). -/
def popMin : List (ℚ × ℕ) → Option ((ℚ × ℕ) × List (ℚ × ℕ))
  | [] => Option.none
  | e :: rest =>
    match popMin rest with
    | Option.none => some (e, rest)
    | some (m, rest2) => if pairLe e m then some (e, rest) else some (m, e :: rest2)

/-- Embedding of `_Schedule` (src lines 124-145): the heap contents are
modelled as the list of stored entries in insertion order; `heapq.heappush`
adds an entry, `heapq.heappop` removes a smallest one (Python tuples
compare lexicographically, so smallest means smallest under `pairLe`). -/
structure Schedule where
  ordering : List (ℚ × ℕ)
deriving DecidableEq

/-- A schedule holding no entries (src line 136). -/
def Schedule.empty : Schedule := { ordering := [] }

/-- Embedding of `_Schedule.push` (src lines 138-139). -/
def Schedule.push (s : Schedule) (next_run : ℚ) (index : ℕ) : Schedule :=
  { ordering := s.ordering ++ [(next_run, index)] }

/-- Embedding of `len(_Schedule)` (src lines 141-142). -/
def Schedule.size (s : Schedule) : ℕ := s.ordering.length

/-- Embedding of `_Schedule.pop` (src lines 144-145). -/
def Schedule.pop (s : Schedule) : Option ((ℚ × ℕ) × Schedule) :=
  match popMin s.ordering with
  | Option.none => Option.none
  | some (e, rest) => some (e, { ordering := rest })

/-- A schedule obtained from the empty one by a sequence of pushes. -/
def Schedule.pushAll (ps : List (ℚ × ℕ)) : Schedule :=
  ps.foldl (fun s p => s.push p.1 p.2) Schedule.empty

/-- A Python value that can flow through a strategy call. -/
inductive PyVal
  | num (q : ℚ)
  | cbv (c : Callback)
  | metsv (m : Metrics)
  | noneV
deriving DecidableEq

/-- Positional-and-keyword binding of a Python call `f(*args, **kwargs)`
against the parameter list of `f`, whose last `numDefaults` parameters
carry default values.  Returns the name/value bindings, or the
`TypeError` Python raises when the call does not match the signature. -/
def bindCall (params : List String) (numDefaults : ℕ)
    (args : List PyVal) (kwargs : List (String × PyVal)) :
    Except PyExc (List (String × PyVal)) :=
  if params.length < args.length then
    .error (.typeError "too many positional arguments")
  else if kwargs.any (fun kv => !(params.contains kv.1)) then
    .error (.typeError "got an unexpected keyword argument")
  else if kwargs.any (fun kv => (params.take args.length).contains kv.1) then
    .error (.typeError "got multiple values for argument")
  else if ((params.take (params.length - numDefaults)).all
      (fun p => (params.take args.length).contains p ||
                kwargs.any (fun kv => kv.1 == p))) then
    .ok (params.zip args ++ kwargs)
  else
    .error (.typeError "missing a required positional argument")

/-- Looks a bound parameter up in the environment a call produced,
falling back to the default value of that parameter. -/
def lookupArg (env : List (String × PyVal)) (p : String) (dflt : PyVal) : PyVal :=
  match env.find? (fun kv => kv.1 == p) with
  | some kv => kv.2
  | Option.none => dflt

/-- Using a value as a number (Python raises TypeError otherwise). -/
def asNum : PyVal → Except PyExc ℚ
  | .num q => .ok q
  | _ => .error (.typeError "a number was expected")

/-- Using a value as a callback object. -/
def asCb : PyVal → Except PyExc Callback
  | .cbv c => .ok c
  | _ => .error (.typeError "a callback was expected")

/-- The recurring-strategy callables of the module, as runtime values.
`withJitter base f r` is the decorator that `_add_jitter(f)(base)` returns
(src lines 90-100); `r` models the `random.random()` draw of the one call
under consideration, a value in `[0, 1)`. -/
inductive StrategyFun
  | lastStarted
  | lastFinished
  | withJitter (base : StrategyFun) (max_percent_jitter : ℚ) (rand : ℚ)
deriving DecidableEq

/-- Positional parameters of `_last_started_strategy` and
`_last_finished_strategy` (src lines 105, 112). -/
def plainStrategyParams : List String :=
  ["cb", "started_at", "finished_at", "metrics"]

/-- Positional parameters of the decorator built by `_add_jitter`
(src line 93): `def decorator(cb, metrics, now=None)`; the trailing
parameter has a default. -/
def jitterDecoratorParams : List String :=
  ["cb", "metrics", "now"]

/-- Evaluation of a strategy callable on a Python call with positional
arguments `args` and keyword arguments `kwargs`.  Each body is the
transliteration of its source:
* `_last_started_strategy` (src lines 112-116): `started_at + cb._periodic_spacing`;
* `_last_finished_strategy` (src lines 105-109): `finished_at + cb._periodic_spacing`;
* the `_add_jitter` decorator (src lines 93-97): binds `(cb, metrics, now)`,
  evaluates `func(cb, metrics, now=now)` and adds
  `cb._periodic_spacing * (random.random() * max_percent_jitter)`. -/
def evalStrategyCall : StrategyFun → List PyVal → List (String × PyVal) → Except PyExc ℚ
  | .lastStarted, args, kwargs => do
    let env ← bindCall plainStrategyParams 0 args kwargs
    let cb ← asCb (lookupArg env "cb" .noneV)
    let started_at ← asNum (lookupArg env "started_at" .noneV)
    let how_often := cb.spacing
    .ok (started_at + how_often)
  | .lastFinished, args, kwargs => do
    let env ← bindCall plainStrategyParams 0 args kwargs
    let cb ← asCb (lookupArg env "cb" .noneV)
    let finished_at ← asNum (lookupArg env "finished_at" .noneV)
    let how_often := cb.spacing
    .ok (finished_at + how_often)
  | .withJitter base max_percent_jitter rand, args, kwargs => do
    let env ← bindCall jitterDecoratorParams 1 args kwargs
    let cb ← asCb (lookupArg env "cb" .noneV)
    let metricsArg := lookupArg env "metrics" .noneV
    let nowArg := lookupArg env "now" .noneV
    let next_run ← evalStrategyCall base [.cbv cb, metricsArg] [("now", nowArg)]
    let how_often := cb.spacing
    let jitter := how_often * (rand * max_percent_jitter)
    .ok (next_run + jitter)

/-- Embedding of the validation in `_add_jitter` (src lines 86-88) and of
the wrapping it performs on success. -/
def _add_jitter (max_percent_jitter : ℚ) (func : StrategyFun) (rand : ℚ) :
    Except PyExc StrategyFun :=
  if max_percent_jitter > 1 ∨ max_percent_jitter < 0 then
    .error (.valueError "Invalid max_percent_jitter")
  else
    .ok (.withJitter func max_percent_jitter rand)

/-- Embedding of `PeriodicWorker.DEFAULT_JITTER = fractions.Fraction(5, 100)`
(src line 206). -/
def DEFAULT_JITTER : ℚ := 5 / 100

/-- The recurring-strategy invocation performed by the completion handler
(src lines 395-397): `self._schedule_strategy(cb, started_at, finished_at,
metrics)` — four positional arguments, no keywords. -/
def callRecurringStrategy (s : StrategyFun) (cb : Callback)
    (started_at finished_at : ℚ) (m : Metrics) : Except PyExc ℚ :=
  evalStrategyCall s [.cbv cb, .num started_at, .num finished_at, .metsv m] []

/-- Formatting of a caught exception, `traceback.format_exc()`
(src line 160); the modelled traceback simply carries the message. -/
def format_exc (msg : String) : String := "Traceback: " ++ msg

/-- The try/except block of `_run_callback` (src lines 154-160): the body
either returns or raises; `except Exception` catches the raise and formats
the traceback (callback-body failures are modelled as the `Exception`
instances this handler catches). -/
def pyTryFormat (body : Except String Unit) : Option String :=
  match body with
  | .ok _ => Option.none
  | .error msg => some (format_exc msg)

/-- Embedding of `_run_callback` (src lines 148-162): `t1` and `t2` are
the two `utils.now()` readings and `body` is the outcome of the wrapped
callback body.  The wrapper itself may in principle raise (hence the
`Except` result), but its code never does. -/
def _run_callback (t1 t2 : ℚ) (body : Except String Unit) :
    Except String (ℚ × ℚ × Option String) :=
  let started_at := t1
  let pretty_tb := pyTryFormat body
  let finished_at := t2
  .ok (started_at, finished_at, pretty_tb)

/-- Modelled from the spec: `utils.reverse_enumerate` lives in the
repository module `_utils`, which is absent from `src/`.  Per the use in
`_build` (src lines 170-173 and its comment), it yields the
`(index, element)` pairs of the list from the last element down to the
first.  `enumerateFrom n l` is plain enumeration starting at index `n`. -/
def enumerateFrom : ℕ → List Callback → List (ℕ × Callback)
  | _, [] => []
  | n, cb :: rest => (n, cb) :: enumerateFrom (n + 1) rest

/-- Modelled from the spec: the reverse enumeration itself. -/
def reverse_enumerate (l : List Callback) : List (ℕ × Callback) :=
  (enumerateFrom 0 l).reverse

/-- The loop body of `_build` (src lines 173-180), written with the
accumulators the Python loop mutates: run-immediately callbacks are
appended to `immediates`, the others are pushed on the schedule with the
due time the initial strategy computes. -/
def buildLoop (next_run_scheduler : Callback → ℚ → ℚ) (now : ℚ) :
    List (ℕ × Callback) → List ℕ → Schedule → List ℕ × Schedule
  | [], immediates, schedule => (immediates, schedule)
  | (index, cb) :: rest, immediates, schedule =>
    if cb.runImmediatelyTruthy then
      buildLoop next_run_scheduler now rest (immediates ++ [index]) schedule
    else
      buildLoop next_run_scheduler now rest immediates
        (schedule.push (next_run_scheduler cb now) index)

/-- Embedding of `_build` (src lines 165-181).  The Python code reads
`utils.now()` lazily, only when some callback is not run-immediately; with
the clock passed in as `now`, the result is the same. -/
def _build (callables : List Callback) (next_run_scheduler : Callback → ℚ → ℚ)
    (now : ℚ) : List ℕ × Schedule :=
  buildLoop next_run_scheduler now (reverse_enumerate callables) [] Schedule.empty

/-- Embedding of `_now_plus_periodicity` (src lines 119-121), the initial
strategy of every built-in strategy pair (src lines 212-229). -/
def _now_plus_periodicity (cb : Callback) (now : ℚ) : ℚ :=
  cb.spacing + now

/-- The mutable state of a `PeriodicWorker` (src lines 335-371):
`callables` is `self._callables` (the args/kwargs riding along in the
Python 4-tuples never influence scheduling and are not modelled),
`metrics` is `self._metrics`, `immediates` is `self._immediates`,
`schedule` is `self._schedule`, `tombstone` is the stop-requested event
and `dead` the loop-exited event.  `inflight` is not a Python attribute:
it models the multiset of indices whose dispatched invocation has not yet
run its completion callback (each pending future carries its index in the
`functools.partial`, src lines 416-420 and 442-446). -/
structure WorkerState where
  callables : List Callback
  metrics : List Metrics
  immediates : List ℕ
  schedule : Schedule
  inflight : List ℕ
  tombstone : Bool
  dead : Bool
deriving DecidableEq

/-- The state a freshly constructed worker is in when its registered
callables are exactly `registry` (end of `__init__`, src lines 335-371):
one zeroed metrics record per callable, immediates and schedule built by
`_build` with the initial strategy, both events unset. -/
def freshState (registry : List Callback) (now : ℚ) : WorkerState :=
  { callables := registry,
    metrics := registry.map (fun _ => INITIAL_METRICS),
    immediates := (_build registry _now_plus_periodicity now).1,
    schedule := (_build registry _now_plus_periodicity now).2,
    inflight := [],
    tombstone := false,
    dead := false }

/-- The validation-and-filter loop of `__init__` (src lines 340-356): a
callback missing required attributes raises `ValueError`; a callback whose
`_is_periodic` attribute is falsy is silently skipped; the rest are
registered in order.  (The callability check always passes here: every
`Callback` value models a callable object.) -/
def collectCallables : List Callback → Except PyExc (List Callback)
  | [] => .ok []
  | cb :: rest =>
    if _check_attrs cb ≠ [] then
      .error (.valueError "Periodic callback missing required attributes")
    else
      match collectCallables rest with
      | .error e => .error e
      | .ok others =>
        if cb.periodicTruthy then .ok (cb :: others) else .ok others

/-- Embedding of `PeriodicWorker.__init__` (src lines 297-371) for a
worker using any of the built-in strategies: all four built-in pairs share
`_now_plus_periodicity` as their initial strategy (src lines 212-229), and
the recurring strategy is data that only the completion handler consults,
so it is not part of the state. -/
def initWorker (raw : List Callback) (now : ℚ) : Except PyExc WorkerState :=
  match collectCallables raw with
  | .error e => .error e
  | .ok registry => .ok (freshState registry now)

/-- Embedding of `PeriodicWorker.add` (src lines 473-497). -/
def addCb (st : WorkerState) (cb : Callback) (now : ℚ) :
    Except PyExc WorkerState :=
  if _check_attrs cb ≠ [] then
    .error (.valueError "Periodic callback missing required attributes")
  else
    let index := st.callables.length
    let st1 := { st with callables := st.callables ++ [cb],
                         metrics := st.metrics ++ [INITIAL_METRICS] }
    if cb.runImmediatelyTruthy then
      .ok { st1 with immediates := st1.immediates ++ [index] }
    else
      .ok { st1 with schedule :=
              st1.schedule.push (_now_plus_periodicity cb now) index }

/-- The metrics updates the completion handler performs on the record of
the completed callback (src lines 382-394). -/
def metricsAfterRun (m : Metrics) (pretty_tb : Option String)
    (started_at finished_at submitted_at : ℚ) : Metrics :=
  let m1 := { m with runs := m.runs + 1 }
  let m2 :=
    if pretty_tb.isSome then { m1 with failures := m1.failures + 1 }
    else { m1 with successes := m1.successes + 1 }
  let elapsed := max 0 (finished_at - started_at)
  let elapsed_waiting := max 0 (started_at - submitted_at)
  { m2 with elapsed := m2.elapsed + elapsed,
            elapsed_waiting := m2.elapsed_waiting + elapsed_waiting }

/-- Embedding of `_on_done` (src lines 379-400).  The strategy is the
fallible call `self._schedule_strategy(cb, started_at, finished_at,
metrics)`; when it raises, the exception propagates out of the done
callback (second component), after the metrics were already mutated and
with no schedule push performed.  When the index is out of range, the read
`self._metrics[index]` raises before any mutation. -/
def onDoneStep (strategy : Callback → ℚ → ℚ → Metrics → Except PyExc ℚ)
    (st : WorkerState) (cb : Callback) (index : ℕ) (submitted_at : ℚ)
    (res : ℚ × ℚ × Option String) : WorkerState × Option PyExc :=
  match res with
  | (started_at, finished_at, pretty_tb) =>
    match st.metrics.get? index with
    | Option.none => (st, some .indexError)
    | some m0 =>
      let m1 := metricsAfterRun m0 pretty_tb started_at finished_at submitted_at
      let st1 := { st with metrics := st.metrics.set index m1 }
      match strategy cb started_at finished_at m1 with
      | .error e => (st1, some e)
      | .ok next_run =>
        ({ st1 with schedule := st1.schedule.push next_run index }, Option.none)

/-- The immediate branch of one loop iteration (src lines 403-420):
`list.pop()` removes the last element; the popped index is dispatched
(recorded in `inflight`); the schedule is not touched.  The `IndexError`
arm (src lines 407-408) is the `pass` case on an empty list. -/
def loopIterImmediates (st : WorkerState) : WorkerState × Option ℕ :=
  match st.immediates.getLast? with
  | Option.none => (st, Option.none)
  | some index =>
    ({ st with immediates := st.immediates.dropLast,
               inflight := st.inflight ++ [index] }, some index)

/-- The schedule branch of one loop iteration (src lines 421-451): pop the
earliest entry; dispatch it when due, otherwise push it back unchanged and
wait.  An empty schedule waits on the condition variable (no state
change). -/
def loopIterSchedule (st : WorkerState) (now : ℚ) : WorkerState × Option ℕ :=
  match st.schedule.pop with
  | Option.none => (st, Option.none)
  | some ((next_run, index), rest) =>
    if next_run - now ≤ 0 then
      ({ st with schedule := rest, inflight := st.inflight ++ [index] },
       some index)
    else
      ({ st with schedule := rest.push next_run index }, Option.none)

/-- One iteration of the coordinator loop `_run` (src lines 402-451):
exit when the tombstone is set; otherwise drain one immediate if any,
else consult the schedule.  The second component is the dispatched index,
if this iteration dispatched one. -/
def loopIter (st : WorkerState) (now : ℚ) : WorkerState × Option ℕ :=
  if st.tombstone then (st, Option.none)
  else if st.immediates.isEmpty then loopIterSchedule st now
  else loopIterImmediates st

/-- Embedding of `stop` (src lines 523-527). -/
def stopWorker (st : WorkerState) : WorkerState :=
  { st with tombstone := true }

/-- Embedding of `reset` (src lines 529-537): clear both events, zero
every key of every metrics record (the keys are exactly the five initial
ones, so a zeroed record equals `INITIAL_METRICS`), and rebuild the
immediates and the schedule from the current callables with the initial
strategy. -/
def resetWorker (st : WorkerState) (now : ℚ) : WorkerState :=
  { st with tombstone := false,
            dead := false,
            metrics := st.metrics.map (fun _ => INITIAL_METRICS),
            immediates := (_build st.callables _now_plus_periodicity now).1,
            schedule := (_build st.callables _now_plus_periodicity now).2 }

/-- Repeatedly popping the immediates list until it is empty, in the order
the loop does it (`list.pop()` takes the last element each time). -/
def drainImmediates (l : List ℕ) : List ℕ :=
  match h : l.getLast? with
  | Option.none => []
  | some i => i :: drainImmediates l.dropLast
termination_by l.length
decreasing_by
  have hne : l ≠ [] := by intro hnil; subst hnil; simp at h
  have hpos : 0 < l.length := List.length_pos.mpr hne
  simp only [List.length_dropLast]
  omega

/-- The operations that can change a worker state, each taken from the
embedding above: a successful `add`, one loop iteration, one completion
callback (for an invocation that is actually in flight), `stop`, and
`reset`.  Times, strategies and completion results are arbitrary. -/
inductive Step : WorkerState → WorkerState → Prop
  | addOk (st : WorkerState) (cb : Callback) (now : ℚ) (st' : WorkerState)
      (h : addCb st cb now = .ok st') : Step st st'
  | loop (st : WorkerState) (now : ℚ) : Step st (loopIter st now).1
  | done (st : WorkerState)
      (strategy : Callback → ℚ → ℚ → Metrics → Except PyExc ℚ)
      (cb : Callback) (index : ℕ) (submitted_at : ℚ)
      (res : ℚ × ℚ × Option String) (hin : index ∈ st.inflight) :
      Step st { (onDoneStep strategy st cb index submitted_at res).1 with
                inflight := st.inflight.erase index }
  | stop (st : WorkerState) : Step st (stopWorker st)
  | resetOp (st : WorkerState) (now : ℚ) : Step st (resetWorker st now)

/-- The worker states reachable from a successful construction by any
sequence of operations. -/
inductive Reachable : WorkerState → Prop
  | init (raw : List Callback) (now : ℚ) (st : WorkerState)
      (h : initWorker raw now = .ok st) : Reachable st
  | step (s s' : WorkerState) (h : Reachable s) (hs : Step s s') : Reachable s'

/-- Index alignment: the metrics table has the length of the registry, and
every index stored in the immediates list, the schedule, or an in-flight
invocation is a valid registry index. -/
def WellIndexed (st : WorkerState) : Prop :=
  st.metrics.length = st.callables.length ∧
  (∀ i ∈ st.immediates, i < st.callables.length) ∧
  (∀ e ∈ st.schedule.ordering, e.2 < st.callables.length) ∧
  (∀ i ∈ st.inflight, i < st.callables.length)

/-- The pieces of shared mutable state named by the concurrency
discipline: the schedule heap, the immediates list, the callback registry,
the metrics table, the stop-requested event and the loop-exited event. -/
inductive SharedVar
  | schedule
  | immediates
  | registry
  | metricsTable
  | stopFlag
  | deadFlag
deriving DecidableEq

/-- One access to shared state performed by the code: which variable, a
read or a write, whether `self._waiter` (the lock of the condition
variable) is held at that program point, and the source line. -/
structure AccessEvent where
  var : SharedVar
  isWrite : Bool
  locked : Bool
  line : ℕ
deriving DecidableEq

/-- Accesses of `_on_done` (src lines 379-400), in program order; only the
final schedule push sits inside `with self._waiter` (src lines 398-399).
The failure and success paths touch the same variable at lines 388/390. -/
def onDoneAccesses : List AccessEvent :=
  [⟨.metricsTable, false, false, 381⟩,
   ⟨.metricsTable, true, false, 382⟩,
   ⟨.metricsTable, true, false, 388⟩,
   ⟨.metricsTable, true, false, 393⟩,
   ⟨.metricsTable, true, false, 394⟩,
   ⟨.schedule, true, true, 399⟩]

/-- Accesses of one loop iteration that takes the immediate branch
(src lines 402-420): the tombstone check, the truthiness test and pop of
`self._immediates`, and the read of `self._callables[index]`, all outside
any `with self._waiter` block. -/
def loopImmediateAccesses : List AccessEvent :=
  [⟨.stopFlag, false, false, 402⟩,
   ⟨.immediates, false, false, 403⟩,
   ⟨.immediates, true, false, 406⟩,
   ⟨.registry, false, false, 410⟩]

/-- Accesses of one loop iteration that pops a due entry and dispatches it
(src lines 402-446): everything from line 427 on is inside
`with self._waiter` (opened at line 426). -/
def loopDispatchAccesses : List AccessEvent :=
  [⟨.stopFlag, false, false, 402⟩,
   ⟨.immediates, false, false, 403⟩,
   ⟨.schedule, false, true, 427⟩,
   ⟨.stopFlag, false, true, 428⟩,
   ⟨.schedule, true, true, 433⟩,
   ⟨.registry, false, true, 437⟩]

/-- Accesses of one loop iteration that pops an entry that is not yet due
and pushes it back (src lines 402-433 and 447-451). -/
def loopWaitAccesses : List AccessEvent :=
  [⟨.stopFlag, false, false, 402⟩,
   ⟨.immediates, false, false, 403⟩,
   ⟨.schedule, false, true, 427⟩,
   ⟨.stopFlag, false, true, 428⟩,
   ⟨.schedule, true, true, 433⟩,
   ⟨.schedule, true, true, 449⟩]

/-- Accesses of `add` for a run-immediately callback (src lines 473-497):
all the shared-state work happens inside `with self._waiter`
(opened at line 487). -/
def addImmediateAccesses : List AccessEvent :=
  [⟨.registry, false, true, 488⟩,
   ⟨.registry, true, true, 490⟩,
   ⟨.metricsTable, true, true, 491⟩,
   ⟨.immediates, true, true, 493⟩]

/-- Accesses of `add` for a callback that goes to the schedule
(src lines 473-497). -/
def addScheduleAccesses : List AccessEvent :=
  [⟨.registry, false, true, 488⟩,
   ⟨.registry, true, true, 490⟩,
   ⟨.metricsTable, true, true, 491⟩,
   ⟨.schedule, true, true, 496⟩]

/-- Accesses of `stop` (src lines 523-527): the tombstone is set inside
`with self._waiter`. -/
def stopAccesses : List AccessEvent :=
  [⟨.stopFlag, true, true, 526⟩]

/-- Accesses of `reset` (src lines 529-537): the method body contains no
`with self._waiter` block at all, so every access runs without the lock. -/
def resetAccesses : List AccessEvent :=
  [⟨.stopFlag, true, false, 531⟩,
   ⟨.deadFlag, true, false, 532⟩,
   ⟨.metricsTable, false, false, 533⟩,
   ⟨.metricsTable, true, false, 535⟩,
   ⟨.registry, false, false, 536⟩,
   ⟨.immediates, true, false, 536⟩,
   ⟨.schedule, true, false, 536⟩]

/-- Every shared-state access performed by the threads the concurrency
discipline names: the coordinator loop (its three iteration shapes), a
completion callback run by the execution backend, and external callers of
`add`, `stop` and `reset`. -/
def allSharedAccesses : List AccessEvent :=
  onDoneAccesses ++ loopImmediateAccesses ++ loopDispatchAccesses ++
  loopWaitAccesses ++ addImmediateAccesses ++ addScheduleAccesses ++
  stopAccesses ++ resetAccesses

/-- The claimed discipline: every one of those accesses holds the lock. -/
def allAccessesLocked : Prop :=
  ∀ e ∈ allSharedAccesses, e.locked = true

/-- A demonstration callback: spacing 2, not run-immediately. -/
def demoCb : Callback :=
  { is_periodic := some true, periodic_spacing := some 2,
    periodic_run_immediately := some false }

/-- A demonstration run-immediately callback. -/
def demoImmediateCb : Callback :=
  { is_periodic := some true, periodic_spacing := some 1,
    periodic_run_immediately := some true }

/-- A callable carrying all three attributes but a non-positive spacing,
as a caller could craft by setting the attributes directly. -/
def badSpacingCb : Callback :=
  { is_periodic := some true, periodic_spacing := some (-1),
    periodic_run_immediately := some false }

/-- A callable carrying all three attributes with a falsy periodic
marker. -/
def falsyMarkerCb : Callback :=
  { is_periodic := some false, periodic_spacing := some 3,
    periodic_run_immediately := some false }

/-- A demonstration worker state holding one registered callback. -/
def demoState : WorkerState := freshState [demoCb] 0

theorem pairLe_refl (a : ℚ × ℕ) : pairLe a a := Or.inr ⟨rfl, le_refl _⟩

theorem pairLe_trans {a b c : ℚ × ℕ} (h1 : pairLe a b) (h2 : pairLe b c) :
    pairLe a c := by
  rcases h1 with h1 | ⟨h1e, h1i⟩
  · rcases h2 with h2 | ⟨h2e, _⟩
    · exact Or.inl (h1.trans h2)
    · exact Or.inl (h2e ▸ h1)
  · rcases h2 with h2 | ⟨h2e, h2i⟩
    · exact Or.inl (h1e ▸ h2)
    · exact Or.inr ⟨h1e.trans h2e, h1i.trans h2i⟩

theorem pairLe_of_not_pairLe {a b : ℚ × ℕ} (h : ¬ pairLe a b) : pairLe b a := by
  unfold pairLe at *
  push_neg at h
  obtain ⟨h1, h2⟩ := h
  rcases lt_trichotomy b.1 a.1 with hlt | heq | hgt
  · exact Or.inl hlt
  · exact Or.inr ⟨heq, le_of_lt (h2 heq.symm)⟩
  · exact absurd hgt (not_lt.mpr h1)

theorem popMin_eq_none_iff (l : List (ℚ × ℕ)) : popMin l = Option.none ↔ l = [] := by
  constructor
  · intro h
    cases l with
    | nil => rfl
    | cons e rest =>
      unfold popMin at h
      cases hrest : popMin rest with
      | none => simp [hrest] at h
      | some p =>
        obtain ⟨m, rest2⟩ := p
        simp [hrest] at h
        by_cases hle : pairLe e m <;> simp [hle] at h
  · intro h; subst h; rfl

theorem popMin_perm {l : List (ℚ × ℕ)} {e : ℚ × ℕ} {r : List (ℚ × ℕ)}
    (h : popMin l = some (e, r)) : l.Perm (e :: r) := by
  induction l generalizing e r with
  | nil => simp [popMin] at h
  | cons a rest ih =>
    unfold popMin at h
    cases hrest : popMin rest with
    | none =>
      rw [hrest] at h
      simp at h
      obtain ⟨he, hr⟩ := h
      subst he; subst hr
      exact List.Perm.refl _
    | some p =>
      obtain ⟨m, rest2⟩ := p
      rw [hrest] at h
      by_cases hle : pairLe a m
      · simp [hle] at h
        obtain ⟨he, hr⟩ := h
        subst he; subst hr
        exact List.Perm.refl _
      · simp [hle] at h
        obtain ⟨he, hr⟩ := h
        subst he; subst hr
        exact (List.Perm.cons a (ih hrest)).trans (List.Perm.swap _ a rest2)

theorem popMin_least {l : List (ℚ × ℕ)} {e : ℚ × ℕ} {r : List (ℚ × ℕ)}
    (h : popMin l = some (e, r)) : ∀ x ∈ l, pairLe e x := by
  induction l generalizing e r with
  | nil => simp [popMin] at h
  | cons a rest ih =>
    unfold popMin at h
    cases hrest : popMin rest with
    | none =>
      rw [hrest] at h
      simp at h
      obtain ⟨he, hr⟩ := h
      subst he; subst hr
      have : rest = [] := (popMin_eq_none_iff rest).mp hrest
      subst this
      intro x hx
      simp at hx
      subst hx
      exact pairLe_refl _
    | some p =>
      obtain ⟨m, rest2⟩ := p
      rw [hrest] at h
      by_cases hle : pairLe a m
      · simp [hle] at h
        obtain ⟨he, hr⟩ := h
        subst he
        intro x hx
        rcases List.mem_cons.mp hx with hx | hx
        · subst hx; exact pairLe_refl _
        · exact pairLe_trans hle (ih hrest x hx)
      · simp [hle] at h
        obtain ⟨he, hr⟩ := h
        subst he
        intro x hx
        rcases List.mem_cons.mp hx with hx | hx
        · subst hx; exact pairLe_of_not_pairLe hle
        · exact ih hrest x hx

theorem pushAll_ordering (ps : List (ℚ × ℕ)) :
    (Schedule.pushAll ps).ordering = ps := by
  have hgen : ∀ (l : List (ℚ × ℕ)) (s : Schedule),
      (l.foldl (fun s p => s.push p.1 p.2) s).ordering = s.ordering ++ l := by
    intro l
    induction l with
    | nil => intro s; simp
    | cons p rest ih =>
      intro s
      rw [List.foldl_cons, ih]
      simp [Schedule.push]
  simpa [Schedule.pushAll, Schedule.empty] using hgen ps Schedule.empty

theorem enumerateFrom_fst_lt (l : List Callback) :
    ∀ (n : ℕ), ∀ p ∈ enumerateFrom n l, p.1 < n + l.length := by
  induction l with
  | nil => intro n p hp; simp [enumerateFrom] at hp
  | cons cb rest ih =>
    intro n p hp
    simp only [enumerateFrom, List.mem_cons] at hp
    rcases hp with hp | hp
    · subst hp
      show n < n + (cb :: rest).length
      simp only [List.length_cons]
      omega
    · have := ih (n + 1) p hp
      simp only [List.length_cons]
      omega

theorem buildLoop_bounds (f : Callback → ℚ → ℚ) (now : ℚ) (n : ℕ) :
    ∀ (l : List (ℕ × Callback)) (imm : List ℕ) (sch : Schedule),
      (∀ p ∈ l, p.1 < n) → (∀ i ∈ imm, i < n) →
      (∀ e ∈ sch.ordering, e.2 < n) →
      (∀ i ∈ (buildLoop f now l imm sch).1, i < n) ∧
      (∀ e ∈ (buildLoop f now l imm sch).2.ordering, e.2 < n) := by
  intro l
  induction l with
  | nil => intro imm sch _ h2 h3; exact ⟨h2, h3⟩
  | cons p rest ih =>
    obtain ⟨index, cb⟩ := p
    intro imm sch h1 h2 h3
    have hidx : index < n := h1 (index, cb) (List.mem_cons_self _ _)
    have h1r : ∀ p ∈ rest, p.1 < n := fun p hp => h1 p (List.mem_cons_of_mem _ hp)
    by_cases hri : cb.runImmediatelyTruthy
    · simp only [buildLoop, hri, if_true]
      apply ih (imm ++ [index]) sch h1r _ h3
      intro i hi
      rcases List.mem_append.mp hi with hi | hi
      · exact h2 i hi
      · simp at hi; omega
    · simp only [buildLoop, hri, if_false, Bool.false_eq_true]
      apply ih imm (sch.push (f cb now) index) h1r h2
      intro e he
      simp only [Schedule.push, List.mem_append] at he
      rcases he with he | he
      · exact h3 e he
      · simp at he; subst he; exact hidx

theorem build_bounds (cs : List Callback) (f : Callback → ℚ → ℚ) (now : ℚ) :
    (∀ i ∈ (_build cs f now).1, i < cs.length) ∧
    (∀ e ∈ (_build cs f now).2.ordering, e.2 < cs.length) := by
  apply buildLoop_bounds
  · intro p hp
    simp only [reverse_enumerate, List.mem_reverse] at hp
    have := enumerateFrom_fst_lt cs 0 p hp
    omega
  · intro i hi; simp at hi
  · intro e he; simp [Schedule.empty] at he

theorem drainImmediates_nil : drainImmediates [] = [] := by
  rw [drainImmediates]
  rfl

theorem drainImmediates_concat (xs : List ℕ) (x : ℕ) :
    drainImmediates (xs ++ [x]) = x :: drainImmediates xs := by
  rw [drainImmediates]
  split
  · rename_i h
    rw [List.getLast?_concat] at h
    cases h
  · rename_i i h
    rw [List.getLast?_concat] at h
    cases h
    rw [List.dropLast_concat]

theorem drainImmediates_eq_reverse (l : List ℕ) :
    drainImmediates l = l.reverse := by
  induction l using List.reverseRecOn with
  | nil => exact drainImmediates_nil
  | append_singleton xs x ih =>
    rw [drainImmediates_concat, ih]
    simp

theorem getLast?_mem_of_eq_some {l : List ℕ} {a : ℕ} (h : l.getLast? = some a) :
    a ∈ l := by
  induction l using List.reverseRecOn with
  | nil => simp at h
  | append_singleton xs x _ =>
    rw [List.getLast?_concat] at h
    simp at h
    subst h
    simp

theorem mem_dropLast_mem {l : List ℕ} {a : ℕ} (h : a ∈ l.dropLast) : a ∈ l := by
  induction l using List.reverseRecOn with
  | nil => simp at h
  | append_singleton xs x _ =>
    rw [List.dropLast_concat] at h
    exact List.mem_append.mpr (Or.inl h)

/-- C1: the claim says the jittered recurring strategies return a due time
in the half-open jitter interval above the base due time.  The code
cannot: the decorator built by `_add_jitter` takes positional parameters
`(cb, metrics, now)` (src line 93) while the completion handler calls
every recurring strategy with four positional arguments
`(cb, started_at, finished_at, metrics)` (src lines 395-397), so the call
raises `TypeError` instead of returning a due time.  This theorem
evaluates the embedded call at a failing input: a callback of spacing 2
under `last_started_jitter` (jitter fraction `DEFAULT_JITTER`), with a
completion started at 10 and finished at 11. -/
theorem claim_c1_jitter_call_raises :
    callRecurringStrategy (.withJitter .lastStarted DEFAULT_JITTER 0)
      demoCb 10 11 INITIAL_METRICS
      = .error (.typeError "too many positional arguments") := by
  rfl

/-- C3 counterexample: the claim that every shared-state access holds the
lock is false on the code; for instance `reset` writes the metrics table
at src line 535 with no `with self._waiter` block anywhere in the method,
and the completion handler mutates the metrics table at src lines 381-394
before acquiring the lock. -/
theorem claim_c3_counterexample : ¬ allAccessesLocked := by
  unfold allAccessesLocked
  decide

/-- C3 amended: the lock discipline the code actually has.  The accesses
made without holding the lock are exactly: the five metrics-table touches
of the completion handler (src lines 381-394), the tombstone check, the
immediates check and pop and the registry read of the loop outside its
with-block (src lines 402-410), and every access of `reset`
(src lines 531-536).  All remaining accesses — the schedule push of the
completion handler, the locked section of the loop, all of `add`, and
`stop` — hold the lock. -/
theorem claim_c3_amended_lock_discipline :
    allSharedAccesses.filter (fun e => !e.locked) =
      [⟨.metricsTable, false, false, 381⟩,
       ⟨.metricsTable, true, false, 382⟩,
       ⟨.metricsTable, true, false, 388⟩,
       ⟨.metricsTable, true, false, 393⟩,
       ⟨.metricsTable, true, false, 394⟩,
       ⟨.stopFlag, false, false, 402⟩,
       ⟨.immediates, false, false, 403⟩,
       ⟨.immediates, true, false, 406⟩,
       ⟨.registry, false, false, 410⟩,
       ⟨.stopFlag, false, false, 402⟩,
       ⟨.immediates, false, false, 403⟩,
       ⟨.stopFlag, false, false, 402⟩,
       ⟨.immediates, false, false, 403⟩,
       ⟨.stopFlag, true, false, 531⟩,
       ⟨.deadFlag, true, false, 532⟩,
       ⟨.metricsTable, false, false, 533⟩,
       ⟨.metricsTable, true, false, 535⟩,
       ⟨.registry, false, false, 536⟩,
       ⟨.immediates, true, false, 536⟩,
       ⟨.schedule, true, false, 536⟩] := by
  decide

/-- C4: for every sequence of pushes into an initially empty schedule, a
successful pop returns a stored entry whose due time is minimal, wins
ties on due time by the smaller callback index, and is removed: the
stored entries are a permutation of the returned entry together with the
remaining ones. -/
theorem claim_c4_pop_minimal (ps : List (ℚ × ℕ)) (e : ℚ × ℕ)
    (s' : Schedule) (h : (Schedule.pushAll ps).pop = some (e, s')) :
    e ∈ ps ∧
    (∀ x ∈ ps, e.1 ≤ x.1) ∧
    (∀ x ∈ ps, x.1 = e.1 → e.2 ≤ x.2) ∧
    ps.Perm (e :: s'.ordering) := by
  unfold Schedule.pop at h
  rw [pushAll_ordering] at h
  cases hpm : popMin ps with
  | none => rw [hpm] at h; cases h
  | some p =>
    obtain ⟨m, rest⟩ := p
    rw [hpm] at h
    simp only [Option.some.injEq, Prod.mk.injEq] at h
    obtain ⟨he, hs⟩ := h
    subst he
    have hperm := popMin_perm hpm
    have hleast := popMin_least hpm
    refine ⟨hperm.mem_iff.mpr (List.mem_cons_self _ _), ?_, ?_, ?_⟩
    · intro x hx
      rcases hleast x hx with h1 | ⟨h2, _⟩
      · exact le_of_lt h1
      · exact le_of_eq h2
    · intro x hx hxe
      rcases hleast x hx with h1 | ⟨_, h3⟩
      · rw [hxe] at h1; exact absurd h1 (lt_irrefl _)
      · exact h3
    · rw [← hs]
      exact hperm

/-- C4 witness: the theorem applied to the singleton push sequence. -/
theorem claim_c4_witness :
    [((5 : ℚ), 2)].Perm (((5 : ℚ), 2) :: (Schedule.mk []).ordering) :=
  (claim_c4_pop_minimal [((5 : ℚ), 2)] ((5 : ℚ), 2) (Schedule.mk [])
    (by rfl)).2.2.2

/-- C5: the dispatch wrapper returns for every callback-body outcome — it
never propagates the body failure — and the third component of its triple
is a formatted traceback exactly when the body raised and is none exactly
when the body returned normally. -/
theorem claim_c5_wrapper_never_propagates (t1 t2 : ℚ)
    (body : Except String Unit) :
    ∃ tb : Option String,
      _run_callback t1 t2 body = .ok (t1, t2, tb) ∧
      (tb = Option.none ↔ body = .ok ()) ∧
      (∀ msg, body = .error msg → tb = some (format_exc msg)) := by
  refine ⟨pyTryFormat body, rfl, ?_, ?_⟩
  · cases body with
    | ok u => cases u; simp [pyTryFormat]
    | error msg => simp [pyTryFormat]
  · intro msg hmsg
    subst hmsg
    rfl

/-- C5 witness: the theorem applied to a raising body. -/
theorem claim_c5_witness :
    ∃ tb : Option String,
      _run_callback 10 11 (.error "boom") = .ok (10, 11, tb) ∧
      (tb = Option.none ↔ (.error "boom" : Except String Unit) = .ok ()) ∧
      (∀ msg, (.error "boom" : Except String Unit) = .error msg →
        tb = some (format_exc msg)) :=
  claim_c5_wrapper_never_propagates 10 11 (.error "boom")

/-- C6 counterexample: the claim says every registration path rejects a
non-positive spacing.  The dynamic add path does not: a callable whose
three attributes were set by hand with spacing -1 is registered without
error (only attribute presence is checked, src lines 480-485), and its
initial due time is even pushed on the schedule. -/
theorem claim_c6_counterexample :
    exceptAccepted (addCb (freshState [] 0) badSpacingCb 5) = true ∧
    addCb (freshState [] 0) badSpacingCb 5
      = .ok { callables := [badSpacingCb],
              metrics := [INITIAL_METRICS],
              immediates := [],
              schedule := ⟨[(_now_plus_periodicity badSpacingCb 5, 0)]⟩,
              inflight := [],
              tombstone := false,
              dead := false } ∧
    _now_plus_periodicity badSpacingCb 5 = 4 := by
  refine ⟨rfl, rfl, ?_⟩
  norm_num [_now_plus_periodicity, Callback.spacing, badSpacingCb]

/-- C6 amended: the `periodic` decorator fails exactly on spacing ≤ 0 and
stamps the accepted spacing on the callable, so every callable registered
through the decorator carries a positive spacing; worker construction and
the dynamic add validate only the presence of the three attributes and
accept a callable regardless of the spacing value those attributes
carry. -/
theorem claim_c6_amended_spacing_validation :
    (∀ s : ℚ, ∀ ri : Bool, (∃ e, periodic s ri = .error e) ↔ s ≤ 0) ∧
    (∀ s : ℚ, ∀ ri : Bool, ∀ cb, periodic s ri = .ok cb →
      cb.periodic_spacing = some s ∧ 0 < s) ∧
    (∀ st cb now, _check_attrs cb = [] → ∃ st', addCb st cb now = .ok st') ∧
    (∀ cb now, _check_attrs cb = [] → ∃ st, initWorker [cb] now = .ok st) := by
  refine ⟨?_, ?_, ?_, ?_⟩
  · intro s ri
    constructor
    · intro ⟨e, he⟩
      by_contra hpos
      rw [periodic, if_neg hpos] at he
      cases he
    · intro hle
      exact ⟨_, by rw [periodic, if_pos hle]⟩
  · intro s ri cb hok
    by_cases hle : s ≤ 0
    · rw [periodic, if_pos hle] at hok; cases hok
    · rw [periodic, if_neg hle] at hok
      cases hok
      exact ⟨rfl, lt_of_not_le hle⟩
  · intro st cb now hattrs
    rw [addCb]
    simp only [hattrs, ne_eq, not_true_eq_false, if_false]
    by_cases hri : cb.runImmediatelyTruthy
    · rw [if_pos hri]; exact ⟨_, rfl⟩
    · rw [if_neg hri]; exact ⟨_, rfl⟩
  · intro cb now hattrs
    simp only [initWorker, collectCallables, hattrs, ne_eq, not_true_eq_false,
      if_false]
    by_cases hper : cb.periodicTruthy
    · simp only [hper, if_true]
      exact ⟨_, rfl⟩
    · simp only [hper, if_false, Bool.false_eq_true]
      exact ⟨_, rfl⟩

/-- C6 amended witness: the add path accepts a handcrafted callable. -/
theorem claim_c6_amended_witness :
    ∃ st', addCb demoState badSpacingCb 5 = .ok st' :=
  claim_c6_amended_spacing_validation.2.2.1 demoState badSpacingCb 5 (by rfl)

theorem getLast?_eq_none_imp {l : List ℕ} (h : l.getLast? = Option.none) :
    l = [] := by
  induction l using List.reverseRecOn with
  | nil => rfl
  | append_singleton xs x _ =>
    rw [List.getLast?_concat] at h
    cases h

/-- C7: when the loop is running (tombstone unset) and the immediates list
is non-empty, the iteration removes exactly the most recently appended
index (the last list element, since both `_build` and `add` only append)
and dispatches it, the schedule and the registry are untouched, and
draining the whole list pops it in reverse append order, the last-added
index first. -/
theorem claim_c7_immediates_lifo (st : WorkerState) (now : ℚ)
    (htomb : st.tombstone = false) (hne : st.immediates ≠ []) :
    (loopIter st now).2 = st.immediates.getLast? ∧
    (loopIter st now).1.immediates = st.immediates.dropLast ∧
    (loopIter st now).1.schedule = st.schedule ∧
    (loopIter st now).1.callables = st.callables ∧
    (loopIter st now).1.metrics = st.metrics ∧
    drainImmediates st.immediates = st.immediates.reverse := by
  have hempty : st.immediates.isEmpty = false := by
    cases hl : st.immediates with
    | nil => exact absurd hl hne
    | cons a l => rfl
  unfold loopIter
  rw [htomb, hempty]
  simp only [Bool.false_eq_true, if_false]
  unfold loopIterImmediates
  cases hL : st.immediates.getLast? with
  | none => exact absurd (getLast?_eq_none_imp hL) hne
  | some i =>
    exact ⟨rfl, rfl, rfl, rfl, rfl, drainImmediates_eq_reverse _⟩

/-- C7 witness: the theorem applied to a worker holding one
run-immediately callback (registered at index 1). -/
theorem claim_c7_witness :
    (loopIter (freshState [demoCb, demoImmediateCb] 0) 0).2
      = (freshState [demoCb, demoImmediateCb] 0).immediates.getLast? :=
  (claim_c7_immediates_lifo (freshState [demoCb, demoImmediateCb] 0) 0
    (by rfl) (by decide)).1

/-- C8: `reset` leaves the worker in the state of a fresh construction
over the same registered callables (and the same built-in strategy, which
`reset` does not touch): both flags cleared, every metrics record zeroed,
and the immediates and schedule rebuilt from the registry by the initial
strategy at the current instant. -/
theorem claim_c8_reset_is_fresh (st : WorkerState) (now : ℚ)
    (hlen : st.metrics.length = st.callables.length) :
    (resetWorker st now).tombstone = (freshState st.callables now).tombstone ∧
    (resetWorker st now).dead = (freshState st.callables now).dead ∧
    (resetWorker st now).callables = (freshState st.callables now).callables ∧
    (resetWorker st now).metrics = (freshState st.callables now).metrics ∧
    (resetWorker st now).immediates = (freshState st.callables now).immediates ∧
    (resetWorker st now).schedule = (freshState st.callables now).schedule := by
  refine ⟨rfl, rfl, rfl, ?_, rfl, rfl⟩
  show st.metrics.map (fun _ => INITIAL_METRICS)
      = st.callables.map (fun _ => INITIAL_METRICS)
  rw [List.map_const', List.map_const', hlen]

/-- C8 witness: the theorem applied to the demonstration worker. -/
theorem claim_c8_witness :
    (resetWorker demoState 7).metrics
      = (freshState demoState.callables 7).metrics :=
  (claim_c8_reset_is_fresh demoState 7 (by rfl)).2.2.2.1

/-- C10: a callable that carries all three required attributes but a falsy
periodic marker is accepted without error by worker construction yet
silently omitted from the registry and the metrics table (src line 347
guards registration on `cb._is_periodic`), while the dynamic add
registers the very same callable unconditionally: `add` never reads the
marker value (src lines 473-497). -/
theorem claim_c10_falsy_marker (cb : Callback) (st : WorkerState) (now : ℚ)
    (hattrs : _check_attrs cb = []) (hfalsy : cb.is_periodic = some false) :
    initWorker [cb] now = .ok (freshState [] now) ∧
    ∃ st', addCb st cb now = .ok st' ∧
      st'.callables = st.callables ++ [cb] ∧
      st'.metrics = st.metrics ++ [INITIAL_METRICS] := by
  have hper : cb.periodicTruthy = false := by
    unfold Callback.periodicTruthy
    rw [hfalsy]
    rfl
  constructor
  · simp only [initWorker, collectCallables, hattrs, ne_eq, not_true_eq_false,
      if_false, hper, Bool.false_eq_true]
  · simp only [addCb, hattrs, ne_eq, not_true_eq_false, if_false]
    by_cases hri : cb.runImmediatelyTruthy
    · rw [if_pos hri]
      exact ⟨_, rfl, rfl, rfl⟩
    · rw [if_neg hri]
      exact ⟨_, rfl, rfl, rfl⟩

/-- C10 witness: the theorem applied to a concrete falsy-marker
callable. -/
theorem claim_c10_witness :
    initWorker [falsyMarkerCb] 3 = .ok (freshState [] 3) :=
  (claim_c10_falsy_marker falsyMarkerCb demoState 3 (by rfl) (by rfl)).1

/-- C2: for a completed dispatched invocation whose index is inside the
metrics table and whose recurring-strategy call returns a value, the
completion handler performs exactly one schedule push, of
`(next_due, index)` with `next_due` the strategy result on the updated
record; it bumps the run count by one, bumps the failure count exactly
when the result carries a failure trace and the success count exactly
otherwise, and accumulates `max 0 (finished_at - started_at)` and
`max 0 (started_at - submitted_at)` into the cumulative times. -/
theorem claim_c2_completion_bookkeeping
    (strategy : Callback → ℚ → ℚ → Metrics → Except PyExc ℚ)
    (st : WorkerState) (cb : Callback) (index : ℕ) (submitted_at : ℚ)
    (started_at finished_at : ℚ) (pretty_tb : Option String)
    (m0 : Metrics) (next_due : ℚ)
    (hidx : st.metrics.get? index = some m0)
    (hstrat : strategy cb started_at finished_at
        (metricsAfterRun m0 pretty_tb started_at finished_at submitted_at)
        = .ok next_due) :
    onDoneStep strategy st cb index submitted_at
        (started_at, finished_at, pretty_tb)
      = ({ st with
            metrics := st.metrics.set index
              (metricsAfterRun m0 pretty_tb started_at finished_at
                submitted_at),
            schedule := st.schedule.push next_due index }, Option.none) ∧
    (metricsAfterRun m0 pretty_tb started_at finished_at submitted_at).runs
      = m0.runs + 1 ∧
    (pretty_tb.isSome = true →
      (metricsAfterRun m0 pretty_tb started_at finished_at
          submitted_at).failures = m0.failures + 1 ∧
      (metricsAfterRun m0 pretty_tb started_at finished_at
          submitted_at).successes = m0.successes) ∧
    (pretty_tb = Option.none →
      (metricsAfterRun m0 pretty_tb started_at finished_at
          submitted_at).successes = m0.successes + 1 ∧
      (metricsAfterRun m0 pretty_tb started_at finished_at
          submitted_at).failures = m0.failures) ∧
    (metricsAfterRun m0 pretty_tb started_at finished_at submitted_at).elapsed
      = m0.elapsed + max 0 (finished_at - started_at) ∧
    (metricsAfterRun m0 pretty_tb started_at finished_at
        submitted_at).elapsed_waiting
      = m0.elapsed_waiting + max 0 (started_at - submitted_at) ∧
    (st.schedule.push next_due index).ordering
      = st.schedule.ordering ++ [(next_due, index)] := by
  refine ⟨?_, ?_, ?_, ?_, ?_, ?_, rfl⟩
  · simp only [onDoneStep, hidx, hstrat]
  · cases pretty_tb <;> simp [metricsAfterRun]
  · intro hsome
    cases pretty_tb with
    | none => cases hsome
    | some tb => exact ⟨by simp [metricsAfterRun], by simp [metricsAfterRun]⟩
  · intro hnone
    subst hnone
    exact ⟨by simp [metricsAfterRun], by simp [metricsAfterRun]⟩
  · cases pretty_tb <;> simp [metricsAfterRun]
  · cases pretty_tb <;> simp [metricsAfterRun]

/-- C2 witness: a completion of the demonstration worker with the plain
`last_started` strategy, submitted at 9, started at 10, finished at 11. -/
theorem claim_c2_witness :
    onDoneStep (callRecurringStrategy .lastStarted) demoState demoCb 0 9
        (10, 11, Option.none)
      = ({ demoState with
            metrics := demoState.metrics.set 0
              (metricsAfterRun INITIAL_METRICS Option.none 10 11 9),
            schedule := demoState.schedule.push (10 + 2) 0 }, Option.none) :=
  (claim_c2_completion_bookkeeping (callRecurringStrategy .lastStarted)
    demoState demoCb 0 9 10 11 Option.none INITIAL_METRICS (10 + 2)
    (by rfl) (by rfl)).1

theorem addCb_ok_shape {st : WorkerState} {cb : Callback} {now : ℚ}
    {st' : WorkerState} (h : addCb st cb now = .ok st') :
    st'.callables = st.callables ++ [cb] ∧
    st'.metrics = st.metrics ++ [INITIAL_METRICS] ∧
    st'.inflight = st.inflight ∧
    ((st'.immediates = st.immediates ++ [st.callables.length] ∧
      st'.schedule = st.schedule) ∨
     (st'.immediates = st.immediates ∧
      st'.schedule = st.schedule.push (_now_plus_periodicity cb now)
        st.callables.length)) := by
  by_cases hattrs : _check_attrs cb = []
  · simp only [addCb, hattrs, ne_eq, not_true_eq_false, if_false] at h
    by_cases hri : cb.runImmediatelyTruthy
    · rw [if_pos hri] at h
      injection h with h2
      subst h2
      exact ⟨rfl, rfl, rfl, Or.inl ⟨rfl, rfl⟩⟩
    · rw [if_neg hri] at h
      injection h with h2
      subst h2
      exact ⟨rfl, rfl, rfl, Or.inr ⟨rfl, rfl⟩⟩
  · rw [addCb, if_pos hattrs] at h
    cases h

theorem Schedule.pop_mem {s : Schedule} {e : ℚ × ℕ} {rest : Schedule}
    (h : s.pop = some (e, rest)) :
    e ∈ s.ordering ∧ ∀ x ∈ rest.ordering, x ∈ s.ordering := by
  unfold Schedule.pop at h
  cases hpm : popMin s.ordering with
  | none => rw [hpm] at h; cases h
  | some p =>
    obtain ⟨m, r⟩ := p
    rw [hpm] at h
    simp only [Option.some.injEq, Prod.mk.injEq] at h
    obtain ⟨he, hr⟩ := h
    subst he
    have hperm := popMin_perm hpm
    constructor
    · exact hperm.mem_iff.mpr (List.mem_cons_self _ _)
    · intro x hx
      rw [← hr] at hx
      exact hperm.mem_iff.mpr (List.mem_cons_of_mem _ hx)

theorem loopIter_fields (st : WorkerState) (now : ℚ) :
    (loopIter st now).1.callables = st.callables ∧
    (loopIter st now).1.metrics = st.metrics := by
  unfold loopIter
  split
  · exact ⟨rfl, rfl⟩
  · split
    · unfold loopIterSchedule
      split
      · exact ⟨rfl, rfl⟩
      · split
        · exact ⟨rfl, rfl⟩
        · exact ⟨rfl, rfl⟩
    · unfold loopIterImmediates
      split
      · exact ⟨rfl, rfl⟩
      · exact ⟨rfl, rfl⟩

theorem onDoneStep_fields
    (strategy : Callback → ℚ → ℚ → Metrics → Except PyExc ℚ)
    (st : WorkerState) (cb : Callback) (index : ℕ) (submitted_at : ℚ)
    (res : ℚ × ℚ × Option String) :
    (onDoneStep strategy st cb index submitted_at res).1.callables
      = st.callables ∧
    (onDoneStep strategy st cb index submitted_at res).1.immediates
      = st.immediates ∧
    (onDoneStep strategy st cb index submitted_at res).1.inflight
      = st.inflight ∧
    (onDoneStep strategy st cb index submitted_at res).1.metrics.length
      = st.metrics.length ∧
    ((onDoneStep strategy st cb index submitted_at res).1.schedule
        = st.schedule ∨
     ∃ t, (onDoneStep strategy st cb index submitted_at res).1.schedule
        = st.schedule.push t index) := by
  obtain ⟨started_at, finished_at, pretty_tb⟩ := res
  unfold onDoneStep
  dsimp only
  split
  · exact ⟨rfl, rfl, rfl, rfl, Or.inl rfl⟩
  · split
    · exact ⟨rfl, rfl, rfl, by simp [List.length_set], Or.inl rfl⟩
    · exact ⟨rfl, rfl, rfl, by simp [List.length_set], Or.inr ⟨_, rfl⟩⟩

theorem wellIndexed_fresh (registry : List Callback) (now : ℚ) :
    WellIndexed (freshState registry now) := by
  obtain ⟨h1, h2⟩ := build_bounds registry _now_plus_periodicity now
  unfold WellIndexed freshState
  exact ⟨by simp, h1, h2, by simp⟩

theorem step_preserves_wellIndexed {st st' : WorkerState}
    (hw : WellIndexed st) (hs : Step st st') : WellIndexed st' := by
  obtain ⟨hlen, himm, hsch, hinf⟩ := hw
  cases hs with
  | addOk cb now st2 h =>
    obtain ⟨hc, hm, hif, hbranch⟩ := addCb_ok_shape h
    refine ⟨?_, ?_, ?_, ?_⟩
    · rw [hc, hm]
      simp [hlen]
    · rcases hbranch with ⟨hImm, _⟩ | ⟨hImm, _⟩
      · rw [hImm, hc]
        intro i hi2
        rcases List.mem_append.mp hi2 with hmem | hmem
        · have := himm i hmem
          simp only [List.length_append, List.length_cons, List.length_nil]
          omega
        · simp only [List.mem_singleton] at hmem
          subst hmem
          simp only [List.length_append, List.length_cons, List.length_nil]
          omega
      · rw [hImm, hc]
        intro i hi2
        have := himm i hi2
        simp only [List.length_append, List.length_cons, List.length_nil]
        omega
    · rcases hbranch with ⟨_, hSch⟩ | ⟨_, hSch⟩
      · rw [hSch, hc]
        intro e he
        have := hsch e he
        simp only [List.length_append, List.length_cons, List.length_nil]
        omega
      · rw [hSch, hc]
        intro e he
        rcases List.mem_append.mp he with hmem | hmem
        · have := hsch e hmem
          simp only [List.length_append, List.length_cons, List.length_nil]
          omega
        · simp only [List.mem_singleton] at hmem
          subst hmem
          simp only [List.length_append, List.length_cons, List.length_nil]
          omega
    · rw [hif, hc]
      intro i hi2
      have := hinf i hi2
      simp only [List.length_append, List.length_cons, List.length_nil]
      omega
  | loop now =>
    unfold loopIter
    split
    · exact ⟨hlen, himm, hsch, hinf⟩
    · split
      · unfold loopIterSchedule
        rcases hpop : st.schedule.pop with _ | ⟨⟨t, i⟩, rest⟩
        · exact ⟨hlen, himm, hsch, hinf⟩
        · dsimp only
          obtain ⟨hti, hrest⟩ := Schedule.pop_mem hpop
          have hiLt : i < st.callables.length := hsch (t, i) hti
          by_cases hdue : t - now ≤ 0
          · rw [if_pos hdue]
            refine ⟨hlen, himm, ?_, ?_⟩
            · intro e he
              exact hsch e (hrest e he)
            · intro j hj
              rcases List.mem_append.mp hj with hmem | hmem
              · exact hinf j hmem
              · simp only [List.mem_singleton] at hmem
                subst hmem
                exact hiLt
          · rw [if_neg hdue]
            refine ⟨hlen, himm, ?_, hinf⟩
            intro e he
            rcases List.mem_append.mp he with hmem | hmem
            · exact hsch e (hrest e hmem)
            · simp only [List.mem_singleton] at hmem
              subst hmem
              exact hiLt
      · unfold loopIterImmediates
        rcases hL : st.immediates.getLast? with _ | i
        · exact ⟨hlen, himm, hsch, hinf⟩
        · dsimp only
          have hiMem : i ∈ st.immediates := getLast?_mem_of_eq_some hL
          refine ⟨hlen, ?_, hsch, ?_⟩
          · intro j hj
            exact himm j (mem_dropLast_mem hj)
          · intro j hj
            rcases List.mem_append.mp hj with hmem | hmem
            · exact hinf j hmem
            · simp only [List.mem_singleton] at hmem
              subst hmem
              exact himm _ hiMem
  | done strategy cb index submitted_at res hin =>
    obtain ⟨hc, hi2, hif, hml, hschOr⟩ :=
      onDoneStep_fields strategy st cb index submitted_at res
    refine ⟨?_, ?_, ?_, ?_⟩
    · show (onDoneStep strategy st cb index submitted_at res).1.metrics.length
        = (onDoneStep strategy st cb index submitted_at res).1.callables.length
      rw [hml, hc, hlen]
    · show ∀ i ∈ (onDoneStep strategy st cb index submitted_at res).1.immediates,
        i < (onDoneStep strategy st cb index submitted_at res).1.callables.length
      rw [hi2, hc]
      exact himm
    · show ∀ e ∈ (onDoneStep strategy st cb index submitted_at res).1.schedule.ordering,
        e.2 < (onDoneStep strategy st cb index submitted_at res).1.callables.length
      rw [hc]
      rcases hschOr with hS | ⟨t, hS⟩
      · rw [hS]; exact hsch
      · rw [hS]
        intro e he
        rcases List.mem_append.mp he with hmem | hmem
        · exact hsch e hmem
        · simp only [List.mem_singleton] at hmem
          subst hmem
          exact hinf index hin
    · show ∀ i ∈ st.inflight.erase index,
        i < (onDoneStep strategy st cb index submitted_at res).1.callables.length
      rw [hc]
      intro j hj
      exact hinf j (List.mem_of_mem_erase hj)
  | stop => exact ⟨hlen, himm, hsch, hinf⟩
  | resetOp now =>
    obtain ⟨h1, h2⟩ := build_bounds st.callables _now_plus_periodicity now
    refine ⟨?_, h1, h2, hinf⟩
    show (st.metrics.map fun _ => INITIAL_METRICS).length = st.callables.length
    rw [List.length_map, hlen]

theorem step_callables_prefix {st st' : WorkerState} (hs : Step st st') :
    List.IsPrefix st.callables st'.callables := by
  cases hs with
  | addOk cb now st2 h =>
    rw [(addCb_ok_shape h).1]
    exact ⟨[cb], rfl⟩
  | loop now =>
    rw [(loopIter_fields st now).1]
  | done strategy cb index submitted_at res hin =>
    show List.IsPrefix st.callables
      (onDoneStep strategy st cb index submitted_at res).1.callables
    rw [(onDoneStep_fields strategy st cb index submitted_at res).1]
  | stop => exact List.prefix_refl _
  | resetOp now => exact List.prefix_refl _

/-- C9: the registry and metrics table stay index-aligned under every
operation: in any reachable state the metrics table has the length of the
registry and every index in the immediates list, the schedule or an
in-flight invocation is a valid registry index; no step ever removes a
registry entry (the old registry is a prefix of the new one); and a
successful add appends exactly the new callable at the next index
together with a zeroed metrics record. -/
theorem claim_c9_registry_alignment :
    (∀ st, Reachable st → WellIndexed st) ∧
    (∀ st st', Step st st' → List.IsPrefix st.callables st'.callables) ∧
    (∀ st cb now st', addCb st cb now = .ok st' →
        st'.callables = st.callables ++ [cb] ∧
        st'.metrics = st.metrics ++ [INITIAL_METRICS]) := by
  refine ⟨?_, ?_, ?_⟩
  · intro st h
    induction h with
    | init raw now st hinit =>
      unfold initWorker at hinit
      cases hcc : collectCallables raw with
      | error e => rw [hcc] at hinit; cases hinit
      | ok registry =>
        rw [hcc] at hinit
        injection hinit with h2
        subst h2
        exact wellIndexed_fresh registry now
    | step s s' hr hs ih => exact step_preserves_wellIndexed ih hs
  · intro st st' hs
    exact step_callables_prefix hs
  · intro st cb now st' h
    obtain ⟨hc, hm, _⟩ := addCb_ok_shape h
    exact ⟨hc, hm⟩

/-- C9 witness: the invariant at the constructed demonstration worker. -/
theorem claim_c9_witness : WellIndexed demoState :=
  claim_c9_registry_alignment.1 demoState
    (Reachable.init [demoCb] 0 demoState (by rfl))
